import Mathlib

/-!
Shallow embedding of `ethereum_info.py` (Hardened Etherscan ETH Tracker v3.2)
and verification of the specification's claims about it.

Conventions of the embedding:
* Python strings are Lean `String`s; a Python value that may be absent or
  `None` is an `Option`.
* Python `float` arithmetic is modelled over `ℚ` (the numbers involved in the
  claims — wei amounts divided by `10^18`, backoff delays `1.5·2^k`, jitter
  factors — are exactly representable, so no rounding behaviour is lost for
  the properties considered here).
* `int(x)` (used via `safe_int`) is modelled by an explicit parser for
  optionally signed decimal integer literals (`pyIntParse`); a `None` or
  non-parseable input yields `none`, i.e. `int` raising.
* `str.lower()` is modelled on ASCII (`pyToLower`), which is the alphabet of
  Ethereum addresses and of the strings compared by the program.
-/

namespace EthInfo

/-- `Config` constants of the script (frozen dataclass). -/
def WEI_TO_ETH : ℚ := 10 ^ 18

def MAX_RETRIES : Nat := 5

def BACKOFF_BASE : ℚ := 3 / 2

def BACKOFF_MAX : ℚ := 30

def JITTER : ℚ := 1 / 4

def PAGE_SIZE : Nat := 100

/-- ASCII uppercase test (`'A' ≤ c ≤ 'Z'`), stated on code points. -/
def isAsciiUpper (c : Char) : Bool := 65 ≤ c.toNat && c.toNat ≤ 90

/-- Model of Python `str.lower` on one character: ASCII uppercase letters are
shifted down by 32 code points, everything else is unchanged. -/
def pyToLower (c : Char) : Char :=
  if h : 65 ≤ c.toNat ∧ c.toNat ≤ 90 then
    Char.ofNatAux (c.toNat + 32) (Or.inl (by omega))
  else c

/-- Model of Python `str.lower` (characterwise). -/
def pyLower (s : String) : String := String.mk (s.data.map pyToLower)

/-- Decimal digit value of a character, `none` for a non-digit. -/
def digitVal (c : Char) : Option Nat :=
  if 48 ≤ c.toNat ∧ c.toNat ≤ 57 then some (c.toNat - 48) else none

/-- Parse a non-empty all-digit character list as a natural number. -/
def parseNatDigits : List Char → Option Nat
  | [] => none
  | cs => cs.foldl (fun acc c =>
      match acc, digitVal c with
      | some n, some d => some (n * 10 + d)
      | _, _ => none) (some 0)

/-- Model of Python `int(x)`: `none` when `int` would raise (`x` is `None`,
or the string is not an optionally signed decimal integer literal). -/
def pyIntParse : Option String → Option Int
  | none => none
  | some s =>
    match s.data with
    | '-' :: rest => (parseNatDigits rest).map (fun n => -(n : Int))
    | '+' :: rest => (parseNatDigits rest).map (fun n => (n : Int))
    | cs => (parseNatDigits cs).map (fun n => (n : Int))

/-- `safe_int(value, default=0)` of the script (always called with the
default `0`). -/
def safe_int (value : Option String) : Int := (pyIntParse value).getD 0

/-- `validate_address`: checks the regex `^0x[a-fA-F0-9]{40}$` and returns
the lowercased address; a non-matching input raises `ValidationError`. -/
def validate_address (address : String) : Except String String :=
  if address.length = 42 ∧ (address.take 2) = "0x" ∧
      (address.drop 2).data.all (fun c =>
        (48 ≤ c.toNat && c.toNat ≤ 57) || (97 ≤ c.toNat && c.toNat ≤ 102)
          || (65 ≤ c.toNat && c.toNat ≤ 70)) then
    .ok (pyLower address)
  else .error "Invalid Ethereum address"

/-- A raw transaction dict as returned by the API's `txlist` result: the
fields the script reads, each possibly absent (`tx.get`). -/
structure Tx where
  hash : Option String
  blockNumber : Option String
  timeStamp : Option String
  «from» : Option String
  «to» : Option String
  value : Option String
  gas : Option String
  gasPrice : Option String
  isError : Option String
deriving DecidableEq, Repr

/-- Loop body of `calculate_totals` (one `tx` folded into the
`(received, sent)` accumulator). Note the `elif`: when the recipient
matches, the sender branch is not evaluated. -/
def totalsStep (address : String) (acc : ℚ × ℚ) (tx : Tx) : ℚ × ℚ :=
  if tx.isError = some "1" then acc
  else
    let value : ℚ := (safe_int tx.value : ℚ) / WEI_TO_ETH
    if pyLower (tx.«to».getD "") = address then (acc.1 + value, acc.2)
    else if pyLower (tx.«from».getD "") = address then (acc.1, acc.2 + value)
    else acc

/-- `calculate_totals(txs, address) → (received, sent)`. -/
def calculate_totals (txs : List Tx) (address : String) : ℚ × ℚ :=
  txs.foldl (totalsStep address) (0, 0)

/-- Round-half-even at the integers (Python's `round` tie-breaking). -/
def roundHalfEven (q : ℚ) : ℤ :=
  let f := Int.floor q
  let r := q - f
  if r < 1 / 2 then f else if 1 / 2 < r then f + 1
  else if f % 2 = 0 then f else f + 1

/-- Python `round(q, 8)` over the rational model. -/
def pyRound8 (q : ℚ) : ℚ := (roundHalfEven (q * 10 ^ 8) : ℚ) / 10 ^ 8

/-- One persisted CSV row, with the column set `Config.CSV_FIELDS`.
The ISO-8601 rendering of the timestamp (`iso_utc`, out of the spec's
scope per §1) is represented by the parsed epoch value it formats. -/
structure CsvRow where
  hash : String
  blockNumber : String
  timeStamp : Int
  «from» : String
  «to» : String
  value_eth : ℚ
  gas : String
  gasPrice : String
  isError : String
deriving DecidableEq, Repr

/-- The row dict written by `append_csv` for one transaction
(lines 248–258 of the script). -/
def renderRow (tx : Tx) : CsvRow where
  hash := tx.hash.getD ""
  blockNumber := tx.blockNumber.getD ""
  timeStamp := safe_int tx.timeStamp
  «from» := tx.«from».getD ""
  «to» := tx.«to».getD ""
  value_eth := pyRound8 ((safe_int tx.value : ℚ) / WEI_TO_ETH)
  gas := tx.gas.getD ""
  gasPrice := tx.gasPrice.getD ""
  isError := tx.isError.getD "0"

/-- State of the ledger CSV file on disk: absent, parseable (its rows),
or unreadable garbage (an opaque blob, plus any rows appended after the
blob by later merges — appending does not make the blob parseable). -/
inductive CsvFile
  | absent
  | readable (rows : List CsvRow)
  | unreadable (blob : Nat) (appended : List CsvRow)
deriving DecidableEq, Repr

/-- `load_existing_hashes(path)`: the set of non-empty hashes of the rows of
a parseable file, `∅` when the file is absent, and `∅` plus a logged
warning ("Failed to read CSV, deduplication disabled") when reading or
parsing raises. Returns `(hashes, warned)`. -/
def load_existing_hashes : CsvFile → List String × Bool
  | .absent => ([], false)
  | .readable rows => ((rows.map CsvRow.hash).filter (fun h => h ≠ ""), false)
  | .unreadable _ _ => ([], true)

/-- The filter `tx.get("hash") not in existing` of `append_csv`
(a `None` hash is never a member of a set of strings). -/
def txIsNew (existing : List String) (tx : Tx) : Bool :=
  match tx.hash with
  | none => true
  | some h => !(existing.contains h)

/-- Value-level model of `append_csv(txs, path)`: returns the new file state
and the number of rows actually written. The write itself goes through a
temporary file; its step-by-step effect on the filesystem is modelled
separately by `append_csv_states`. -/
def append_csv (txs : List Tx) (file : CsvFile) : CsvFile × Nat :=
  let existing := (load_existing_hashes file).1
  let rows := txs.filter (txIsNew existing)
  if rows.isEmpty then (file, 0)
  else
    let rendered := rows.map renderRow
    match file with
    | .absent => (.readable rendered, rows.length)
    | .readable rs => (.readable (rs ++ rendered), rows.length)
    | .unreadable b e => (.unreadable b (e ++ rendered), rows.length)

/-- One line of a CSV file: the header line or a data row. -/
inductive CsvLine
  | header
  | row (r : CsvRow)
deriving DecidableEq, Repr

/-- Filesystem state seen by `append_csv`: the ledger file `main` at `path`
and the staging file `tmp` at `path.with_suffix(".tmp")`; `none` = the file
does not exist. -/
structure FS where
  main : Option (List CsvLine)
  tmp : Option (List CsvLine)
deriving DecidableEq, Repr

/-- The records persisted in a ledger file (absent file = no records). -/
def ledgerRows (main : Option (List CsvLine)) : List CsvRow :=
  (main.getD []).filterMap (fun l => match l with
    | .header => none
    | .row r => some r)

/-- The hash set `load_existing_hashes` reads from a parseable `main`. -/
def mainHashes (main : Option (List CsvLine)) : List String :=
  ((ledgerRows main).map CsvRow.hash).filter (fun h => h ≠ "")

/-- Step-level model of `append_csv(txs, path)` for a parseable (or absent)
ledger: the filesystem states reachable while the function runs, in program
order — initial state; `tmp` opened with mode "w" (truncated to empty);
header written to `tmp`; one state per data row written to `tmp`; `main`
opened with mode "a"/"w"; then the staged content (minus the header line
when `main` pre-existed, skipped by `next(inp)`) is appended to `main` by
`out.write(inp.read())`. That append is a plain buffered write to the live
ledger file — there is no atomic rename — so a failure mid-append (a crash,
or `ENOSPC` surfacing from the write or the flush on closing) can persist
any prefix of the staged suffix: one state per such prefix (index `j` over
`suffix.take j`, from the freshly opened file at `j = 0` to the complete
append). Finally `tmp` is unlinked. A failure at any point leaves the
filesystem in one of these states. -/
def append_csv_states (txs : List Tx) (fs0 : FS) : List FS :=
  let existing := mainHashes fs0.main
  let rows := txs.filter (txIsNew existing)
  if rows.isEmpty then [fs0]
  else
    let write_header := fs0.main.isNone
    let rendered := rows.map (fun tx => CsvLine.row (renderRow tx))
    let tmpFull := CsvLine.header :: rendered
    let tmpSteps := (List.range rows.length).map (fun i =>
      FS.mk fs0.main (some (CsvLine.header :: rendered.take (i + 1))))
    let opened : List CsvLine := fs0.main.getD []
    let suffix := if write_header then tmpFull else tmpFull.tail
    let appendSteps := (List.range (suffix.length + 1)).map (fun j =>
      FS.mk (some (opened ++ suffix.take j)) (some tmpFull))
    fs0 :: FS.mk fs0.main (some []) :: FS.mk fs0.main (some [CsvLine.header])
      :: tmpSteps
      ++ appendSteps
      ++ [FS.mk (some (opened ++ suffix)) none]

/-- Decidable model of Python's `needle in hay` on strings: some suffix of
`hay` starts with `needle`. -/
def containsSub (needle hay : String) : Bool :=
  (List.range (hay.data.length + 1)).any
    (fun i => needle.data.isPrefixOf (hay.data.drop i))

/-- The JSON body of an HTTP response: either not a dict, or a dict with the
three fields `_request` inspects — `status` (`data.get("status")`), `message`
(`data.get("message", "")`), and `result`. The outer `Option` on `result` is
key presence (`"result" in data`); the inner one is `null` vs a string
payload. -/
inductive HttpBody
  | nonDict
  | dict (status : Option String) (message : Option String)
      (result : Option (Option String))
deriving DecidableEq, Repr

/-- Outcome of one `session.get` call: a transport-level exception
(`requests.RequestException`: timeout, connection error, …) or an HTTP
response with a status code and a body. -/
inductive TransportResult
  | netError
  | resp (statusCode : Nat) (body : HttpBody)
deriving DecidableEq, Repr

/-- The validated dict `_request` returns: `status`, the stringified
`message`, and the `result` payload (present by construction; `none` means
the JSON value `null`). -/
structure ApiData where
  status : Option String
  message : String
  result : Option String
deriving DecidableEq, Repr

/-- The duration `sleep_with_jitter(delay)` actually sleeps, given the drawn
jitter factor: `min(delay * jitter, Config.BACKOFF_MAX)`. Note the cap is
applied to the jittered product. -/
def sleep_with_jitter_duration (delay jitter : ℚ) : ℚ :=
  min (delay * jitter) BACKOFF_MAX

/-- The value of `_request`'s local `delay` before the `n`-th backoff sleep:
it starts at `BACKOFF_BASE` and doubles after each sleep, so the `n`-th
retry is preceded by `BACKOFF_BASE * 2^(n-1)`. -/
def backoff_delay (n : Nat) : ℚ := BACKOFF_BASE * 2 ^ (n - 1)

/-- The `try:` body of one attempt of `_request` (lines 122–152): every
raised exception — `RateLimitError`, `requests.RequestException` (which
includes the `HTTPError` from `raise_for_status`), `APIError` — is caught by
the two `except` clauses below the body, so an `error` outcome always leads
to the common retry path. -/
def singleAttempt (tr : TransportResult) : Except String ApiData :=
  match tr with
  | .netError => .error "RequestException"
  | .resp code body =>
    if code = 429 then .error "HTTP 429 rate limit"
    else if 400 ≤ code ∧ code < 600 then .error "HTTPError"
    else
      match body with
      | .nonDict => .error "Non-dict JSON response"
      | .dict status message result =>
        let msg := message.getD ""
        if status = some "0" ∧ containsSub "rate limit" (pyLower msg) then
          .error msg
        else if status = some "0" ∧ ¬(msg = "OK" ∨ msg = "No transactions found")
            then .error msg
        else
          match result with
          | none => .error "Missing result field"
          | some payload => .ok (ApiData.mk status msg payload)

/-- What a whole `_request` call did: the returned data or the raised
`APIError`, the number of attempts made, and the backoff durations slept
(the fixed `RATE_LIMIT_DELAY` sleep before every attempt is not tracked). -/
structure RequestResult where
  outcome : Except String ApiData
  attempts : Nat
  slept : List ℚ
deriving Repr

/-- The retry loop of `_request`, one recursive step per attempt.
`transport` gives the outcome of the network call on each attempt number,
`jitters` the jitter factor drawn by `sleep_with_jitter` on that attempt;
`remaining` counts the attempts left (from `MAX_RETRIES`), and `delay` and
`slept` carry the backoff state. Exhaustion raises
`APIError("Etherscan request failed after retries")`. -/
def requestLoop (transport : Nat → TransportResult) (jitters : Nat → ℚ) :
    Nat → Nat → ℚ → List ℚ → RequestResult
  | attempt, 0, _delay, slept =>
    RequestResult.mk (.error "Etherscan request failed after retries")
      (attempt - 1) slept
  | attempt, remaining + 1, delay, slept =>
    match singleAttempt (transport attempt) with
    | .ok data => RequestResult.mk (.ok data) attempt slept
    | .error _ =>
      if attempt < MAX_RETRIES then
        requestLoop transport jitters (attempt + 1) remaining (delay * 2)
          (slept ++ [sleep_with_jitter_duration delay (jitters attempt)])
      else requestLoop transport jitters (attempt + 1) remaining delay slept

/-- `EtherscanClient._request(params)`: up to `MAX_RETRIES` attempts starting
at attempt 1 with initial backoff `delay = BACKOFF_BASE`. -/
def _request (transport : Nat → TransportResult) (jitters : Nat → ℚ) :
    RequestResult :=
  requestLoop transport jitters 1 MAX_RETRIES BACKOFF_BASE []

/-- `EtherscanClient.get_balance(address)`:
`safe_int(data["result"]) / Config.WEI_TO_ETH` on the dict `_request`
returned, or the propagated exception. -/
def get_balance (transport : Nat → TransportResult) (jitters : Nat → ℚ) :
    Except String ℚ :=
  match (_request transport jitters).outcome with
  | .ok data => .ok ((safe_int data.result : ℚ) / WEI_TO_ETH)
  | .error e => .error e

/-- The `while` loop of `get_transactions`. `src` gives, for each page
number, the `result` batch of the (successful) `_request` for that page;
each iteration issues one request (`reqs` counts them), appends the batch,
and stops on an empty batch, on a short batch (`< PAGE_SIZE`), on reaching
`limit`, or — raising `APIError` — when the `seen_pages` guardrail trips.
The source's upward counter is carried as the remaining budget
`seenLeft = 10000 - seen_pages`, so the guardrail
`seen_pages + 1 > 10_000` (checked after the short-batch break, before the
page advance) is `seenLeft = 0`. Returns the accumulated records truncated
to `limit` (`results[:limit]`) and the number of page requests issued. -/
def txLoop (src : Nat → List Tx) (limit : Nat) :
    (page : Nat) → (seenLeft : Nat) → (results : List Tx) → (reqs : Nat) →
    Except String (List Tx × Nat)
  | page, seenLeft, results, reqs =>
    if results.length < limit then
      let batch := src page
      if batch.isEmpty then .ok (results.take limit, reqs + 1)
      else
        if batch.length < PAGE_SIZE then
          .ok ((results ++ batch).take limit, reqs + 1)
        else
          match seenLeft with
          | 0 => .error "Pagination safety limit exceeded"
          | seenLeft' + 1 =>
            txLoop src limit (page + 1) seenLeft' (results ++ batch) (reqs + 1)
    else .ok (results.take limit, reqs)

/-- `EtherscanClient.get_transactions(address, limit)`: the loop starting at
page 1 with an empty accumulator and `seen_pages = 0` (budget 10000). -/
def get_transactions (src : Nat → List Tx) (limit : Nat) :
    Except String (List Tx × Nat) :=
  txLoop src limit 1 10000 [] 0

/-! Concrete inputs used to witness the theorems below. -/

/-- A transaction record whose sender and recipient both lowercase to
`"0xaa"`: a self-transfer of 5 wei. -/
def selfTx : Tx :=
  Tx.mk (some "0xh1") none none (some "0xAA") (some "0xaa") (some "5")
    none none (some "0")

/-- A transaction dict carrying only a hash. -/
def mkHashTx (h : String) : Tx :=
  Tx.mk (some h) none none none none none none none none

/-- A persisted row carrying only a hash. -/
def mkHashRow (h : String) : CsvRow :=
  CsvRow.mk h "" 0 "" "" 0 "" "" "0"

/-- An existing ledger of 10 rows with hashes `"h1" … "h10"`. -/
def ledger10 : List CsvRow :=
  (List.range 10).map (fun i => mkHashRow ("h" ++ toString (i + 1)))

/-- A batch of 5 records: 3 already in `ledger10` (by hash) and 2 new. -/
def txs5 : List Tx :=
  [mkHashTx "h1", mkHashTx "h2", mkHashTx "h3", mkHashTx "n1", mkHashTx "n2"]

/-- A pre-existing one-row ledger file (with its header line), no staging
file present. -/
def fsPre : FS :=
  FS.mk (some [CsvLine.header, CsvLine.row (mkHashRow "h1")]) none

/-- A batch of two genuinely new records merged into `fsPre`. -/
def txs2 : List Tx := [mkHashTx "n1", mkHashTx "n2"]

/-- The filesystem state of a merge of `txs2` into `fsPre` that failed
mid-append: both rows are staged in `tmp`, but only the first has reached
the ledger — the persisted ledger holds a partial suffix. -/
def fsMid : FS :=
  FS.mk
    (some [CsvLine.header, CsvLine.row (mkHashRow "h1"),
      CsvLine.row (renderRow (mkHashTx "n1"))])
    (some [CsvLine.header, CsvLine.row (renderRow (mkHashTx "n1")),
      CsvLine.row (renderRow (mkHashTx "n2"))])

/-- A transport that answers HTTP 404 on every attempt. -/
def transport404 : Nat → TransportResult :=
  fun _ => .resp 404 (.dict none none none)

/-- A degenerate jitter draw (factor 1 on every attempt). -/
def jitters1 : Nat → ℚ := fun _ => 1

/-- A transport that fails with a connection error on attempts 1 and 2 and
returns a well-formed success from attempt 3 on. -/
def transportFlaky : Nat → TransportResult :=
  fun attempt =>
    if attempt ≤ 2 then .netError
    else .resp 200 (.dict (some "1") (some "OK") (some (some "100")))

/-- A transport whose (successful) balance response carries a non-numeric
`result` payload. -/
def transportBadBalance : Nat → TransportResult :=
  fun _ => .resp 200 (.dict (some "1") (some "OK") (some (some "abc")))

/-- A page source serving batches of sizes 100, 100, 37, then nothing. -/
def pages100_100_37 : Nat → List Tx
  | 1 => List.replicate 100 (mkHashTx "a")
  | 2 => List.replicate 100 (mkHashTx "b")
  | 3 => List.replicate 37 (mkHashTx "c")
  | _ => []

/-- The 50 records `get_transactions` returns for `limit = 50` against
`pages100_100_37`: the first page truncated to the limit. -/
def firstPage50 : List Tx := List.replicate 50 (mkHashTx "a")

/-- A transport outcome that is an HTTP 4xx response other than 429. -/
def is4xxNot429 (tr : TransportResult) : Prop :=
  ∃ code body, tr = .resp code body ∧ 400 ≤ code ∧ code < 500 ∧ code ≠ 429

/-! ### Theorems -/

set_option maxRecDepth 8000

theorem pyToLower_not_upper (c : Char) : isAsciiUpper (pyToLower c) = false := by
  unfold pyToLower
  split
  · next h =>
    have hv : (Char.ofNatAux (c.toNat + 32) (Or.inl (by omega))).toNat
        = c.toNat + 32 := rfl
    simp only [isAsciiUpper, hv, Bool.and_eq_false_iff, decide_eq_false_iff_not]
    omega
  · next h =>
    simp only [isAsciiUpper, Bool.and_eq_false_iff, decide_eq_false_iff_not]
    omega

theorem pyLower_no_upper (s : String) :
    ∀ c ∈ (pyLower s).data, isAsciiUpper c = false := by
  intro c hc
  have hc' : c ∈ s.data.map pyToLower := hc
  obtain ⟨a, _, rfl⟩ := List.mem_map.mp hc'
  exact pyToLower_not_upper a

theorem pyLower_ne_of_upper (s address : String)
    (h : ∃ c ∈ address.data, isAsciiUpper c = true) :
    pyLower s ≠ address := by
  intro heq
  obtain ⟨c, hc, hupper⟩ := h
  have := pyLower_no_upper s c (heq ▸ hc)
  simp [this] at hupper

theorem totalsStep_of_upper (address : String) (acc : ℚ × ℚ) (tx : Tx)
    (h : ∃ c ∈ address.data, isAsciiUpper c = true) :
    totalsStep address acc tx = acc := by
  unfold totalsStep
  split
  · rfl
  · rw [if_neg (pyLower_ne_of_upper _ _ h), if_neg (pyLower_ne_of_upper _ _ h)]

/-- C10: `calculate_totals` lowercases each record's sender and recipient
but compares them against the reference address exactly as given, so for
every record set and every address containing an ASCII uppercase letter the
result is `(0, 0)`; the advertised case-insensitive matching therefore
requires the address argument to be lowercase already, which is what
`validate_address` produces (its output never contains an uppercase
letter). -/
theorem calculate_totals_needs_lowercase_address
    (txs : List Tx) (address : String)
    (h : ∃ c ∈ address.data, isAsciiUpper c = true) :
    calculate_totals txs address = (0, 0) ∧
      ∀ s a, validate_address s = .ok a → ∀ c ∈ a.data, isAsciiUpper c = false := by
  constructor
  · have hstep : ∀ acc, txs.foldl (totalsStep address) acc = acc := by
      induction txs with
      | nil => intro acc; rfl
      | cons tx txs ih =>
        intro acc
        rw [List.foldl_cons, totalsStep_of_upper _ _ _ h, ih]
    exact hstep (0, 0)
  · intro s a hok
    unfold validate_address at hok
    split at hok
    · cases hok
      exact pyLower_no_upper s
    · cases hok

/-- C10 witness at a concrete input: the address `"0xAb"` contains an
uppercase letter, so the totals over a batch containing a matching-but-for-
case self-transfer are `(0, 0)`, and a validated address is lowercase. -/
theorem calculate_totals_needs_lowercase_address_witness :
    calculate_totals [selfTx] "0xAb" = (0, 0) ∧
      ∀ s a, validate_address s = .ok a → ∀ c ∈ a.data, isAsciiUpper c = false :=
  calculate_totals_needs_lowercase_address [selfTx] "0xAb"
    ⟨'A', by decide, by decide⟩

theorem totalsStep_shift (address : String) (acc : ℚ × ℚ) (tx : Tx) :
    totalsStep address acc tx =
      (acc.1 + (totalsStep address (0, 0) tx).1,
       acc.2 + (totalsStep address (0, 0) tx).2) := by
  unfold totalsStep
  split_ifs <;> simp

theorem foldl_totalsStep_shift (address : String) (txs : List Tx) :
    ∀ acc : ℚ × ℚ,
      txs.foldl (totalsStep address) acc =
        (acc.1 + (txs.foldl (totalsStep address) (0, 0)).1,
         acc.2 + (txs.foldl (totalsStep address) (0, 0)).2) := by
  induction txs with
  | nil => intro acc; simp
  | cons tx txs ih =>
    intro acc
    simp only [List.foldl_cons]
    rw [ih (totalsStep address acc tx), ih (totalsStep address (0, 0) tx),
      totalsStep_shift]
    simp [add_assoc]

/-- C1 counterexample: `selfTx` is a non-failed record whose sender
(`"0xAA"`) and recipient (`"0xaa"`) both equal the reference address
`"0xaa"` case-insensitively and whose amount is `5/10^18` ETH, yet
`calculate_totals` leaves the sent total at `0` instead of adding the
amount to it: due to the `elif`, the sender branch is skipped whenever the
recipient branch matched. -/
theorem calculate_totals_self_transfer_cex :
    calculate_totals [selfTx] "0xaa" = (5 / WEI_TO_ETH, 0) ∧
      ¬((0 : ℚ) = 5 / WEI_TO_ETH) := by
  constructor
  · have h1 : totalsStep "0xaa" ((0 : ℚ), (0 : ℚ)) selfTx
        = ((safe_int selfTx.value : ℚ) / WEI_TO_ETH, 0) := by
      unfold totalsStep
      rw [if_neg (by decide), if_pos (by decide)]
      simp
    unfold calculate_totals
    rw [List.foldl_cons, List.foldl_nil, h1]
    have h5 : safe_int selfTx.value = 5 := by decide
    rw [h5]
    norm_num
  · intro h
    rw [WEI_TO_ETH] at h
    norm_num at h

/-- C1 amended: for every transaction record that is not flagged as failed
and whose sender and recipient both equal the reference address after
lowercasing, `calculate_totals` adds the record's amount to the received
total only; the sent total is unchanged, because the sender test is the
`elif` branch of the recipient test. -/
theorem calculate_totals_self_transfer (tx : Tx) (txs : List Tx)
    (address : String)
    (hErr : tx.isError ≠ some "1")
    (hTo : pyLower (tx.«to».getD "") = address)
    (hFrom : pyLower (tx.«from».getD "") = address) :
    calculate_totals (tx :: txs) address =
      ((calculate_totals txs address).1 + (safe_int tx.value : ℚ) / WEI_TO_ETH,
       (calculate_totals txs address).2) := by
  unfold calculate_totals
  rw [List.foldl_cons, foldl_totalsStep_shift]
  have hstep : totalsStep address (0, 0) tx
      = ((safe_int tx.value : ℚ) / WEI_TO_ETH, 0) := by
    unfold totalsStep
    rw [if_neg hErr, if_pos hTo]
    simp
  rw [hstep]
  simp [add_comm]

/-- C1 amended, witnessed at `selfTx` over the empty tail. -/
theorem calculate_totals_self_transfer_witness :
    calculate_totals [selfTx] "0xaa" =
      ((calculate_totals [] "0xaa").1 + (safe_int selfTx.value : ℚ) / WEI_TO_ETH,
       (calculate_totals [] "0xaa").2) :=
  calculate_totals_self_transfer selfTx [] "0xaa" (by decide) (by decide)
    (by decide)

theorem requestLoop_ok_of_fails_then_succeeds (t : Nat → TransportResult)
    (j : Nat → ℚ) :
    ∀ (k attempt remaining : Nat) (d : ℚ) (sl : List ℚ) (data : ApiData),
      k < remaining →
      (∀ i, attempt ≤ i → i < attempt + k → ∃ e, singleAttempt (t i) = .error e) →
      singleAttempt (t (attempt + k)) = .ok data →
      (requestLoop t j attempt remaining d sl).outcome = .ok data ∧
        (requestLoop t j attempt remaining d sl).attempts = attempt + k := by
  intro k
  induction k with
  | zero =>
    intro attempt remaining d sl data hlt hfails hok
    match remaining, hlt with
    | r + 1, _ =>
      simp only [Nat.add_zero] at hok ⊢
      refine ⟨?_, ?_⟩ <;> simp only [requestLoop, hok]
  | succ k ih =>
    intro attempt remaining d sl data hlt hfails hok
    match remaining, hlt with
    | r + 1, _ =>
      obtain ⟨e, he⟩ := hfails attempt (Nat.le_refl _) (by omega)
      have hok' : singleAttempt (t (attempt + 1 + k)) = .ok data := by
        rw [show attempt + 1 + k = attempt + (k + 1) by omega]
        exact hok
      have hfails' : ∀ i, attempt + 1 ≤ i → i < attempt + 1 + k →
          ∃ e, singleAttempt (t i) = .error e :=
        fun i h1 h2 => hfails i (by omega) (by omega)
      have hlt' : k < r := by omega
      have harith : attempt + 1 + k = attempt + (k + 1) := by omega
      simp only [requestLoop, he]
      split
      · rw [← harith]
        exact ih (attempt + 1) r (d * 2)
          (sl ++ [sleep_with_jitter_duration d (j attempt)]) data hlt' hfails' hok'
      · rw [← harith]
        exact ih (attempt + 1) r d sl data hlt' hfails' hok'

theorem requestLoop_exhausts (t : Nat → TransportResult) (j : Nat → ℚ) :
    ∀ (remaining attempt : Nat) (d : ℚ) (sl : List ℚ),
      (∀ i, attempt ≤ i → i < attempt + remaining →
        ∃ e, singleAttempt (t i) = .error e) →
      (requestLoop t j attempt remaining d sl).outcome
          = .error "Etherscan request failed after retries" ∧
        (requestLoop t j attempt remaining d sl).attempts
          = attempt + remaining - 1 := by
  intro remaining
  induction remaining with
  | zero =>
    intro attempt d sl _
    exact ⟨rfl, rfl⟩
  | succ r ih =>
    intro attempt d sl hfails
    obtain ⟨e, he⟩ := hfails attempt (Nat.le_refl _) (by omega)
    have hfails' : ∀ i, attempt + 1 ≤ i → i < attempt + 1 + r →
        ∃ e, singleAttempt (t i) = .error e :=
      fun i h1 h2 => hfails i (by omega) (by omega)
    have harith : attempt + 1 + r - 1 = attempt + (r + 1) - 1 := by omega
    simp only [requestLoop, he]
    split
    · rw [← harith]
      exact ih (attempt + 1) (d * 2)
        (sl ++ [sleep_with_jitter_duration d (j attempt)]) hfails'
    · rw [← harith]
      exact ih (attempt + 1) d sl hfails'

/-- C6: if the transport fails with an exception the retry machinery
catches (timeout, connection error, HTTP error, rate limit, logical API
failure) on the first `k < MAX_RETRIES` attempts and succeeds on the next,
`_request` returns that success after exactly `k + 1` attempts; and when
every one of the `MAX_RETRIES` attempts fails this way, the failure is
surfaced (as `APIError("Etherscan request failed after retries")`) only
after all `MAX_RETRIES` attempts. -/
theorem request_transient_retry_counts (t : Nat → TransportResult)
    (j : Nat → ℚ) :
    (∀ (k : Nat) (data : ApiData), k < MAX_RETRIES →
      (∀ i, 1 ≤ i → i ≤ k → ∃ e, singleAttempt (t i) = .error e) →
      singleAttempt (t (k + 1)) = .ok data →
      (_request t j).outcome = .ok data ∧ (_request t j).attempts = k + 1)
    ∧ ((∀ i, 1 ≤ i → i ≤ MAX_RETRIES → ∃ e, singleAttempt (t i) = .error e) →
      (_request t j).outcome = .error "Etherscan request failed after retries" ∧
        (_request t j).attempts = MAX_RETRIES) := by
  constructor
  · intro k data hk hfails hok
    have := requestLoop_ok_of_fails_then_succeeds t j k 1 MAX_RETRIES
      BACKOFF_BASE [] data hk (fun i h1 h2 => hfails i h1 (by omega))
      (by rw [show 1 + k = k + 1 by omega]; exact hok)
    rw [show 1 + k = k + 1 by omega] at this
    exact this
  · intro hfails
    have := requestLoop_exhausts t j MAX_RETRIES 1 BACKOFF_BASE []
      (fun i h1 h2 => hfails i h1 (by omega))
    exact this

/-- C6 witness: a transport failing with a connection error on attempts 1
and 2 and succeeding on attempt 3 makes `_request` return the success after
exactly 3 attempts. -/
theorem request_transient_retry_counts_witness :
    (_request transportFlaky jitters1).outcome
        = .ok (ApiData.mk (some "1") "OK" (some "100")) ∧
      (_request transportFlaky jitters1).attempts = 2 + 1 :=
  (request_transient_retry_counts transportFlaky jitters1).1 2
    (ApiData.mk (some "1") "OK" (some "100")) (by decide)
    (fun i h1 h2 => ⟨"RequestException", by interval_cases i <;> rfl⟩)
    rfl

/-- C2 counterexample: with a transport answering HTTP 404 on every attempt,
`_request` does not fail after exactly 1 attempt with no backoff sleep — it
makes 5 attempts and performs 4 backoff sleeps, because the `HTTPError`
raised by `raise_for_status` is a `requests.RequestException` and is caught
by the retry loop like any transient failure. -/
theorem request_404_not_fatal_after_one_attempt :
    (_request transport404 jitters1).attempts = 5 ∧
      (_request transport404 jitters1).slept.length = 4 ∧
      ¬((_request transport404 jitters1).attempts = 1) := by
  refine ⟨rfl, rfl, ?_⟩
  intro h
  rw [show (_request transport404 jitters1).attempts = 5 from rfl] at h
  omega

/-- C2 amended: for every request whose transport returns an HTTP 4xx
status other than 429 (e.g. a 404) on each attempt, `_request` treats the
resulting `HTTPError` as retriable: it makes exactly `MAX_RETRIES` (5)
attempts, sleeping with backoff between them, and only then raises
`APIError("Etherscan request failed after retries")`; there is no
fatal-failure-after-one-attempt path. -/
theorem request_4xx_retried_to_exhaustion (t : Nat → TransportResult)
    (j : Nat → ℚ)
    (h : ∀ i, 1 ≤ i → i ≤ MAX_RETRIES → is4xxNot429 (t i)) :
    (_request t j).outcome = .error "Etherscan request failed after retries" ∧
      (_request t j).attempts = MAX_RETRIES := by
  have herr : ∀ i, 1 ≤ i → i ≤ MAX_RETRIES →
      ∃ e, singleAttempt (t i) = .error e := by
    intro i h1 h2
    obtain ⟨code, body, heq, h4, h5, hne⟩ := h i h1 h2
    refine ⟨"HTTPError", ?_⟩
    rw [heq]
    simp only [singleAttempt]
    rw [if_neg hne, if_pos ⟨h4, by omega⟩]
  have := requestLoop_exhausts t j MAX_RETRIES 1 BACKOFF_BASE []
    (fun i h1 h2 => herr i h1 (by omega))
  exact this

/-- C2 amended, witnessed on the always-404 transport. -/
theorem request_4xx_retried_to_exhaustion_witness :
    (_request transport404 jitters1).outcome
        = .error "Etherscan request failed after retries" ∧
      (_request transport404 jitters1).attempts = MAX_RETRIES :=
  request_4xx_retried_to_exhaustion transport404 jitters1
    (fun i h1 h2 =>
      ⟨404, HttpBody.dict none none none, rfl, by omega, by omega, by omega⟩)

/-- C7: for every attempt number `1 ≤ n ≤ MAX_RETRIES` and every jitter
factor in `[1 - JITTER, 1 + JITTER]`, the backoff duration slept before
retry `n` is strictly positive and lies within
`[base·mult^(n-1)·(1-J), base·mult^(n-1)·(1+J)]` (base `3/2`, multiplier
`2`); moreover on this range the duration equals the one obtained by
capping the exponential term at `BACKOFF_MAX` before applying the jitter
factor, since the cap never binds below attempt `MAX_RETRIES`. -/
theorem backoff_delay_within_jitter_bounds (n : Nat) (jitter : ℚ)
    (h1 : 1 ≤ n) (h2 : n ≤ MAX_RETRIES)
    (hj1 : 1 - JITTER ≤ jitter) (hj2 : jitter ≤ 1 + JITTER) :
    0 < sleep_with_jitter_duration (backoff_delay n) jitter ∧
      backoff_delay n * (1 - JITTER) ≤
        sleep_with_jitter_duration (backoff_delay n) jitter ∧
      sleep_with_jitter_duration (backoff_delay n) jitter ≤
        backoff_delay n * (1 + JITTER) ∧
      sleep_with_jitter_duration (backoff_delay n) jitter
        = min (backoff_delay n) BACKOFF_MAX * jitter := by
  have h2' : n ≤ 5 := h2
  have hd24 : backoff_delay n ≤ 24 := by
    interval_cases n <;> norm_num [backoff_delay, BACKOFF_BASE]
  have hdpos : 0 < backoff_delay n := by
    rw [backoff_delay, BACKOFF_BASE]
    positivity
  have hj1' : (3 / 4 : ℚ) ≤ jitter := by rw [JITTER] at hj1; linarith
  have hj2' : jitter ≤ (5 / 4 : ℚ) := by rw [JITTER] at hj2; linarith
  have hjpos : (0 : ℚ) < jitter := by linarith
  have hcap : backoff_delay n * jitter ≤ 30 := by nlinarith
  have hmin : sleep_with_jitter_duration (backoff_delay n) jitter
      = backoff_delay n * jitter := by
    rw [sleep_with_jitter_duration, BACKOFF_MAX]
    exact min_eq_left hcap
  refine ⟨?_, ?_, ?_, ?_⟩
  · rw [hmin]; positivity
  · rw [hmin]
    exact mul_le_mul_of_nonneg_left hj1 hdpos.le
  · rw [hmin]
    exact mul_le_mul_of_nonneg_left hj2 hdpos.le
  · rw [hmin, min_eq_left (by rw [BACKOFF_MAX]; linarith)]

/-- C7 witness at `n = 1`, jitter factor `1`. -/
theorem backoff_delay_within_jitter_bounds_witness :
    0 < sleep_with_jitter_duration (backoff_delay 1) 1 ∧
      backoff_delay 1 * (1 - JITTER) ≤
        sleep_with_jitter_duration (backoff_delay 1) 1 ∧
      sleep_with_jitter_duration (backoff_delay 1) 1 ≤
        backoff_delay 1 * (1 + JITTER) ∧
      sleep_with_jitter_duration (backoff_delay 1) 1
        = min (backoff_delay 1) BACKOFF_MAX * 1 :=
  backoff_delay_within_jitter_bounds 1 1 (by decide) (by decide)
    (by norm_num [JITTER]) (by norm_num [JITTER])

theorem txLoop_ok_length_le (src : Nat → List Tx) (limit : Nat) :
    ∀ (seenLeft page : Nat) (results : List Tx) (reqs : Nat)
      (l : List Tx) (r : Nat),
      txLoop src limit page seenLeft results reqs = .ok (l, r) →
      l.length ≤ limit := by
  intro seenLeft
  induction seenLeft with
  | zero =>
    intro page results reqs l r h
    rw [txLoop] at h
    simp only [] at h
    split at h
    · split at h
      · simp only [Except.ok.injEq, Prod.mk.injEq] at h
        obtain ⟨hl, -⟩ := h
        subst hl
        rw [List.length_take]
        exact min_le_left _ _
      · split at h
        · simp only [Except.ok.injEq, Prod.mk.injEq] at h
          obtain ⟨hl, -⟩ := h
          subst hl
          rw [List.length_take]
          exact min_le_left _ _
        · exact Except.noConfusion h
    · simp only [Except.ok.injEq, Prod.mk.injEq] at h
      obtain ⟨hl, -⟩ := h
      subst hl
      rw [List.length_take]
      exact min_le_left _ _
  | succ seenLeft' ih =>
    intro page results reqs l r h
    rw [txLoop] at h
    simp only [] at h
    split at h
    · split at h
      · simp only [Except.ok.injEq, Prod.mk.injEq] at h
        obtain ⟨hl, -⟩ := h
        subst hl
        rw [List.length_take]
        exact min_le_left _ _
      · split at h
        · simp only [Except.ok.injEq, Prod.mk.injEq] at h
          obtain ⟨hl, -⟩ := h
          subst hl
          rw [List.length_take]
          exact min_le_left _ _
        · exact ih (page + 1) (results ++ src page) (reqs + 1) l r h
    · simp only [Except.ok.injEq, Prod.mk.injEq] at h
      obtain ⟨hl, -⟩ := h
      subst hl
      rw [List.length_take]
      exact min_le_left _ _

/-- C5: whenever `get_transactions` returns a record list, its length is at
most `limit`; against page batches of sizes `[100, 100, 37]`, a limit of
500 yields exactly 237 records after 3 page requests, and a limit of 50
yields exactly 50 records after fetching only the first page. -/
theorem get_transactions_length_bounded :
    (∀ (src : Nat → List Tx) (limit : Nat) (l : List Tx) (r : Nat),
      get_transactions src limit = .ok (l, r) → l.length ≤ limit)
    ∧ (∃ l, get_transactions pages100_100_37 500 = .ok (l, 3) ∧
        l.length = 237)
    ∧ (∃ l, get_transactions pages100_100_37 50 = .ok (l, 1) ∧
        l.length = 50) := by
  refine ⟨?_, ⟨_, rfl, by decide⟩, ⟨_, rfl, by decide⟩⟩
  intro src limit l r h
  exact txLoop_ok_length_le src limit 10000 1 [] 0 l r h

/-- C5 witness: the bound instantiated on the concrete page source at
limit 50. -/
theorem get_transactions_length_bounded_witness :
    get_transactions pages100_100_37 50 = .ok (firstPage50, 1) ∧
      firstPage50.length ≤ 50 :=
  ⟨by rfl,
   get_transactions_length_bounded.1 pages100_100_37 50 firstPage50 1
     (by rfl)⟩

/-- C9: for every successful balance response whose `result` payload is not
a parseable integer (a non-numeric string, or the JSON value `null`),
`get_balance` does not raise: `safe_int` totalizes the conversion to the
default `0`, so `get_balance` returns `0.0` instead of surfacing a
malformed-response error. -/
theorem get_balance_unparseable_result_zero (t : Nat → TransportResult)
    (j : Nat → ℚ) (data : ApiData)
    (hok : (_request t j).outcome = .ok data)
    (hbad : pyIntParse data.result = none) :
    get_balance t j = .ok 0 := by
  unfold get_balance
  rw [hok]
  have hz : safe_int data.result = 0 := by
    unfold safe_int
    rw [hbad]
    rfl
  simp only []
  rw [hz]
  norm_num

/-- C9 witness: a success response whose `result` is the string `"abc"`
yields balance `0`. -/
theorem get_balance_unparseable_result_zero_witness :
    get_balance transportBadBalance jitters1 = .ok 0 :=
  get_balance_unparseable_result_zero transportBadBalance jitters1
    (ApiData.mk (some "1") "OK" (some "abc")) rfl rfl

/-- C8: when the existing ledger file is unreadable, the merge never fails:
`load_existing_hashes` swallows the parse error, surfaces a warning and
returns the empty hash set, so `append_csv` proceeds with deduplication
disabled — every input record is treated as new and appended — while the
pre-existing unreadable content is left intact (rows are only appended
after it, never replacing it). -/
theorem append_csv_unreadable_degrades (b : Nat) (e : List CsvRow)
    (txs : List Tx) :
    load_existing_hashes (.unreadable b e) = ([], true) ∧
      append_csv txs (.unreadable b e)
        = (.unreadable b (e ++ txs.map renderRow), txs.length) := by
  refine ⟨rfl, ?_⟩
  unfold append_csv
  have hfilter : txs.filter (txIsNew (load_existing_hashes (.unreadable b e)).1)
      = txs := by
    rw [List.filter_eq_self]
    intro tx _
    unfold txIsNew
    cases tx.hash with
    | none => rfl
    | some h => rfl
  simp only [hfilter]
  by_cases he : txs.isEmpty
  · rw [if_pos he]
    rw [List.isEmpty_iff] at he
    subst he
    simp
  · rw [if_neg he]

theorem txIsNew_false_iff (existing : List String) (tx : Tx) (h : String)
    (hh : tx.hash = some h) : txIsNew existing tx = false ↔ h ∈ existing := by
  simp [txIsNew, hh]

theorem mem_hashes_readable (rs : List CsvRow) (h : String) :
    h ∈ (load_existing_hashes (.readable rs)).1 ↔
      (∃ row ∈ rs, row.hash = h) ∧ h ≠ "" := by
  simp only [load_existing_hashes, List.mem_filter, List.mem_map]
  constructor
  · rintro ⟨⟨row, hrow, rfl⟩, hne⟩
    exact ⟨⟨row, hrow, rfl⟩, by simpa using hne⟩
  · rintro ⟨⟨row, hrow, rfl⟩, hne⟩
    exact ⟨⟨row, hrow, rfl⟩, by simpa using hne⟩

theorem txIsNew_after_append (file : CsvFile) (txs : List Tx)
    (hnu : ∀ b e, file ≠ .unreadable b e) (tx : Tx) (hmem : tx ∈ txs)
    (h : String) (hh : tx.hash = some h) (hne : h ≠ "") :
    txIsNew (load_existing_hashes (append_csv txs file).1).1 tx = false := by
  unfold append_csv
  simp only []
  split
  · next hempty =>
    rw [List.isEmpty_iff, List.filter_eq_nil_iff] at hempty
    have := hempty tx hmem
    rw [Bool.not_eq_true] at this
    exact this
  · next hempty =>
    cases file with
    | unreadable b e => exact absurd rfl (hnu b e)
    | absent =>
      rw [txIsNew_false_iff _ _ h hh, mem_hashes_readable]
      have htxin : txIsNew (load_existing_hashes CsvFile.absent).1 tx = true := by
        simp [load_existing_hashes, txIsNew, hh]
      refine ⟨⟨renderRow tx, ?_, ?_⟩, hne⟩
      · exact List.mem_map_of_mem renderRow
          (List.mem_filter.mpr ⟨hmem, htxin⟩)
      · simp [renderRow, hh]
    | readable rs =>
      rw [txIsNew_false_iff _ _ h hh, mem_hashes_readable]
      by_cases hnew : txIsNew (load_existing_hashes (.readable rs)).1 tx = true
      · refine ⟨⟨renderRow tx, ?_, ?_⟩, hne⟩
        · exact List.mem_append_right _ (List.mem_map_of_mem renderRow
            (List.mem_filter.mpr ⟨hmem, hnew⟩))
        · simp [renderRow, hh]
      · rw [Bool.not_eq_true, txIsNew_false_iff _ _ h hh,
          mem_hashes_readable] at hnew
        obtain ⟨⟨row, hrow, hrh⟩, -⟩ := hnew
        exact ⟨⟨row, List.mem_append_left _ hrow, hrh⟩, hne⟩

/-- C4: merging a record batch of which 3 records are already present in
the parseable ledger by hash and 2 are new writes exactly 2 rows; and the
merge is idempotent: immediately re-running `append_csv` with the same
input batch against the resulting file writes 0 additional rows and leaves
the file unchanged — provided, per the data model, every record carries a
present, non-empty hash, and the ledger is parseable or absent (an
unreadable ledger disables deduplication entirely). -/
theorem append_csv_dedup_and_idempotent :
    (∀ (rows : List CsvRow) (txs : List Tx),
      txs.countP
          (fun tx => !txIsNew (load_existing_hashes (.readable rows)).1 tx)
        = 3 →
      txs.countP (txIsNew (load_existing_hashes (.readable rows)).1) = 2 →
      (append_csv txs (.readable rows)).2 = 2)
    ∧ (∀ (file : CsvFile) (txs : List Tx),
      (∀ b e, file ≠ .unreadable b e) →
      (∀ tx ∈ txs, tx.hash ≠ none ∧ tx.hash ≠ some "") →
      append_csv txs (append_csv txs file).1 = ((append_csv txs file).1, 0)) := by
  constructor
  · intro rows txs h3 h2
    have hlen : (txs.filter
        (txIsNew (load_existing_hashes (.readable rows)).1)).length = 2 := by
      rw [← h2, List.countP_eq_length_filter]
    unfold append_csv
    simp only []
    split
    · next hempty =>
      rw [List.isEmpty_iff] at hempty
      rw [hempty] at hlen
      simp at hlen
    · simp [hlen]
  · intro file txs hnu htx
    have hempty2 : txs.filter
        (txIsNew (load_existing_hashes (append_csv txs file).1).1) = [] := by
      rw [List.filter_eq_nil_iff]
      intro tx hmem
      obtain ⟨hnn, hns⟩ := htx tx hmem
      obtain ⟨h, hh⟩ := Option.ne_none_iff_exists.mp hnn
      have hne : h ≠ "" := by
        intro heq
        subst heq
        exact hns hh.symm
      rw [Bool.not_eq_true]
      exact txIsNew_after_append file txs hnu tx hmem h hh.symm hne
    conv_lhs => rw [append_csv]
    rw [hempty2]
    rfl

/-- C4 witness: against the 10-row ledger `ledger10`, the batch `txs5`
(hashes `h1, h2, h3` present; `n1, n2` new) writes exactly 2 rows, and the
immediately repeated merge writes 0 and leaves the file unchanged. -/
theorem append_csv_dedup_and_idempotent_witness :
    (append_csv txs5 (.readable ledger10)).2 = 2 ∧
      append_csv txs5 (append_csv txs5 (.readable ledger10)).1
        = ((append_csv txs5 (.readable ledger10)).1, 0) :=
  ⟨append_csv_dedup_and_idempotent.1 ledger10 txs5 (by decide) (by decide),
   append_csv_dedup_and_idempotent.2 (.readable ledger10) txs5
     (fun b e hne => CsvFile.noConfusion hne) (by decide)⟩

theorem ledgerRows_getD (m : Option (List CsvLine)) :
    ledgerRows (some (m.getD [])) = ledgerRows m := by
  cases m <;> simp [ledgerRows]

theorem ledgerRows_append (a b : List CsvLine) :
    ledgerRows (some (a ++ b)) = ledgerRows (some a) ++ ledgerRows (some b) := by
  simp [ledgerRows, List.filterMap_append]

theorem ledgerRows_header_cons (b : List CsvLine) :
    ledgerRows (some (CsvLine.header :: b)) = ledgerRows (some b) := by
  simp [ledgerRows]

theorem ledgerRows_rendered (txs : List Tx) :
    ledgerRows (some (txs.map (fun tx => CsvLine.row (renderRow tx))))
      = txs.map renderRow := by
  induction txs with
  | nil => rfl
  | cons t ts ih =>
    simp only [List.map_cons, ledgerRows, Option.getD_some, List.filterMap_cons]
      at ih ⊢
    rw [ih]

theorem ledgerRows_rendered_take (txs : List Tx) (m : Nat) :
    ledgerRows (some ((txs.map (fun tx => CsvLine.row (renderRow tx))).take m))
      = (txs.map renderRow).take m := by
  rw [← List.map_take, ledgerRows_rendered, List.map_take]

/-- What the non-atomic append does guarantee, at every reachable state:
the persisted ledger consists of its original records followed by some
prefix (`take k`) of the new rows — possibly empty, possibly partial,
possibly complete — and for a pre-existing ledger file the original
content is only ever extended, never truncated, modified or rewritten. -/
theorem append_csv_append_only_prefix (txs : List Tx) (fs0 : FS)
    (fs : FS) (hmem : fs ∈ append_csv_states txs fs0) :
    (∃ k, ledgerRows fs.main = ledgerRows fs0.main ++
        ((txs.filter (txIsNew (mainHashes fs0.main))).map renderRow).take k)
    ∧ (∀ c, fs0.main = some c → ∃ suf, fs.main = some (c ++ suf)) := by
  unfold append_csv_states at hmem
  simp only [] at hmem
  split at hmem
  · rw [List.mem_singleton] at hmem
    subst hmem
    exact ⟨⟨0, by simp⟩, fun c hc => ⟨[], by rw [hc, List.append_nil]⟩⟩
  · simp only [List.mem_cons, List.mem_append, List.mem_map,
      List.mem_range, List.mem_singleton, List.mem_nil_iff, or_false] at hmem
    have hsuffix : ∀ wh : Bool, ledgerRows (some
        (if wh = true then
          CsvLine.header :: (txs.filter (txIsNew (mainHashes fs0.main))).map
            (fun tx => CsvLine.row (renderRow tx))
        else (CsvLine.header :: (txs.filter (txIsNew (mainHashes fs0.main))).map
            (fun tx => CsvLine.row (renderRow tx))).tail))
        = (txs.filter (txIsNew (mainHashes fs0.main))).map renderRow := by
      intro wh
      cases wh
      · simp only [Bool.false_eq_true, if_false, List.tail_cons]
        exact ledgerRows_rendered _
      · simp only [if_true]
        rw [ledgerRows_header_cons]
        exact ledgerRows_rendered _
    have hsuffix_take : ∀ j, ∃ k, ledgerRows (some
        ((if fs0.main.isNone = true then
          CsvLine.header :: (txs.filter (txIsNew (mainHashes fs0.main))).map
            (fun tx => CsvLine.row (renderRow tx))
        else (CsvLine.header :: (txs.filter (txIsNew (mainHashes fs0.main))).map
            (fun tx => CsvLine.row (renderRow tx))).tail).take j))
        = ((txs.filter (txIsNew (mainHashes fs0.main))).map renderRow).take k := by
      intro j
      cases hwh : fs0.main.isNone
      · simp only [hwh, Bool.false_eq_true, if_false, List.tail_cons]
        exact ⟨j, ledgerRows_rendered_take _ _⟩
      · simp only [hwh, if_true]
        cases j with
        | zero => exact ⟨0, by simp [ledgerRows]⟩
        | succ m =>
          refine ⟨m, ?_⟩
          rw [List.take_succ_cons, ledgerRows_header_cons]
          exact ledgerRows_rendered_take _ _
    rcases hmem with ((rfl | rfl | rfl | ⟨i, hi, rfl⟩) | ⟨j, hj, rfl⟩) | rfl
    · exact ⟨⟨0, by simp⟩, fun c hc => ⟨[], by rw [hc, List.append_nil]⟩⟩
    · exact ⟨⟨0, by simp⟩, fun c hc => ⟨[], by simp [hc]⟩⟩
    · exact ⟨⟨0, by simp⟩, fun c hc => ⟨[], by simp [hc]⟩⟩
    · exact ⟨⟨0, by simp⟩, fun c hc => ⟨[], by simp [hc]⟩⟩
    · constructor
      · obtain ⟨k, hk⟩ := hsuffix_take j
        refine ⟨k, ?_⟩
        rw [← hk]
        exact (by rw [ledgerRows_append, ledgerRows_getD])
      · intro c hc
        refine ⟨((CsvLine.header :: (txs.filter
            (txIsNew (mainHashes fs0.main))).map
            (fun tx => CsvLine.row (renderRow tx))).tail).take j, ?_⟩
        simp [hc]
    · constructor
      · refine ⟨((txs.filter (txIsNew (mainHashes fs0.main))).map
            renderRow).length, ?_⟩
        rw [List.take_length, ledgerRows_append, ledgerRows_getD, hsuffix]
      · intro c hc
        refine ⟨(CsvLine.header :: (txs.filter
            (txIsNew (mainHashes fs0.main))).map
            (fun tx => CsvLine.row (renderRow tx))).tail, ?_⟩
        simp [hc]

theorem fsMid_mem : fsMid ∈ append_csv_states txs2 fsPre := by
  unfold append_csv_states
  simp only []
  rw [if_neg (by decide)]
  refine List.mem_cons_of_mem _ (List.mem_cons_of_mem _
    (List.mem_cons_of_mem _ ?_))
  refine List.mem_append_left _ (List.mem_append_right _ ?_)
  exact List.mem_map_of_mem _ (show (1 : Nat) ∈ List.range 3 by decide)

/-- C3 (code bug): the claim — and the module docstring's "Truly atomic CSV
append" — promise that a failure at any point mid-write leaves the ledger
either in its original state or with the complete new suffix. The staging
file protects the ledger while rows are rendered, but the staged content is
then made visible by a plain buffered append to the live ledger
(`out.write(inp.read())` in mode "a", no atomic rename), so a failure
mid-append can persist a partial suffix: merging the two new records `txs2`
into the one-row ledger `fsPre`, the state `fsMid` — original row plus only
the first of the two staged rows — is reachable, and its ledger is neither
the original nor the original plus the complete new suffix. -/
theorem append_csv_partial_suffix_reachable :
    fsMid ∈ append_csv_states txs2 fsPre ∧
      ¬(ledgerRows fsMid.main = ledgerRows fsPre.main ∨
        ledgerRows fsMid.main = ledgerRows fsPre.main ++
          (txs2.filter (txIsNew (mainHashes fsPre.main))).map renderRow) := by
  refine ⟨fsMid_mem, ?_⟩
  intro h
  have h2 : (ledgerRows fsMid.main).length = 2 := rfl
  rcases h with h | h
  · have h1 : (ledgerRows fsPre.main).length = 1 := rfl
    rw [h, h1] at h2
    exact absurd h2 (by decide)
  · have h3 : (ledgerRows fsPre.main ++
        (txs2.filter (txIsNew (mainHashes fsPre.main))).map renderRow).length
        = 3 := rfl
    rw [h, h3] at h2
    exact absurd h2 (by decide)

end EthInfo
